import Mathlib

/-!
Formalisation of the weather-report application core (src/app.py).

The program keeps a sqlite table
  `weather_data (timestamp TEXT PRIMARY KEY, temperature REAL, humidity REAL)`
and exposes three operations:

* `weather_report` (route `/weather-report`): validates `lat`/`lon`, fetches a
  provider payload of three parallel lists, and writes each zipped triple with
  `INSERT OR REPLACE`, committing once after the loop;
* `export_excel` (route `/export/excel`): `SELECT * FROM weather_data ORDER BY
  timestamp DESC LIMIT 48`, serialised with a header row;
* `export_pdf` (route `/export/pdf`): reads the whole table ascending, fails on
  an empty table, and builds a document whose metadata shows the min/max of the
  timestamp column and whose sample table shows the first 10 rows with every
  numeric cell rendered via the format string `"%.1f"`.

Timestamps are ISO-8601 UTC strings, for which sqlite's lexicographic TEXT
ordering coincides with chronological ordering; we therefore model them as
`String` with its linear order.  `REAL` columns are nullable, hence `Option ℚ`.
The fixed `"%Y-%m-%d %H:%M"` reformatting of timestamps in the document is an
injective, order-preserving recoding; the date-range fields of the model keep
the underlying timestamp strings.
-/

/-- One row of the `weather_data` table. -/
structure Obs where
  timestamp : String
  temperature : Option ℚ
  humidity : Option ℚ
deriving DecidableEq, Repr

/-- The `weather_data` table: a bag of rows (reads impose the order). -/
abbrev Store := List Obs

/-- The primary-key column of the table. -/
def keys (s : Store) : List String := s.map (·.timestamp)

/-- The `PRIMARY KEY` integrity constraint: no two rows share a timestamp. -/
def nodupKeys (s : Store) : Prop := (keys s).Nodup

instance : DecidablePred nodupKeys := fun s =>
  inferInstanceAs (Decidable (keys s).Nodup)

/-- `INSERT OR REPLACE INTO weather_data ... VALUES (?, ?, ?)`
(src/app.py lines 59-66): overwrite the row with the same primary key if one
exists, otherwise insert a new row. -/
def upsert (s : Store) (o : Obs) : Store :=
  if o.timestamp ∈ keys s then
    s.map (fun r => if r.timestamp = o.timestamp then o else r)
  else s ++ [o]

/-- The committed effect of the upsert loop when every `execute` succeeds. -/
def applyBatch (s : Store) (obs : List Obs) : Store := obs.foldl upsert s

/-- `SELECT * FROM weather_data WHERE timestamp = t` (at most one row by the
primary key). -/
def lookup (s : Store) (t : String) : Option Obs :=
  s.find? (fun r => r.timestamp == t)

/-- All rows carrying a given timestamp (used to state uniqueness). -/
def rowsFor (t : String) (s : Store) : Store :=
  s.filter (fun r => r.timestamp = t)

/-- Descending comparison on the timestamp column (`ORDER BY timestamp DESC`). -/
def tsDescRel (a b : Obs) : Prop := b.timestamp ≤ a.timestamp

/-- Ascending comparison on the timestamp column (`ORDER BY timestamp ASC`). -/
def tsAscRel (a b : Obs) : Prop := a.timestamp ≤ b.timestamp

/-- Strict descending comparison, for stating strict sortedness. -/
def tsStrictDescRel (a b : Obs) : Prop := b.timestamp < a.timestamp

instance : DecidableRel tsDescRel := fun a b =>
  inferInstanceAs (Decidable (b.timestamp ≤ a.timestamp))

instance : DecidableRel tsAscRel := fun a b =>
  inferInstanceAs (Decidable (a.timestamp ≤ b.timestamp))

instance : IsTotal Obs tsDescRel :=
  ⟨fun a b => by unfold tsDescRel; exact le_total b.timestamp a.timestamp⟩

instance : IsTrans Obs tsDescRel :=
  ⟨fun a b c h₁ h₂ => by unfold tsDescRel at *; exact le_trans h₂ h₁⟩

instance : IsTotal Obs tsAscRel :=
  ⟨fun a b => by unfold tsAscRel; exact le_total a.timestamp b.timestamp⟩

instance : IsTrans Obs tsAscRel :=
  ⟨fun a b c h₁ h₂ => by unfold tsAscRel at *; exact le_trans h₁ h₂⟩

/-- `ORDER BY timestamp DESC`. -/
def sortDesc (s : Store) : Store := List.insertionSort tsDescRel s

/-- `ORDER BY timestamp ASC`. -/
def sortAsc (s : Store) : Store := List.insertionSort tsAscRel s

/-- The serialised spreadsheet: the header row pandas writes, then the data
rows in query order. -/
structure TableArtifact where
  header : List String
  rows : Store
deriving DecidableEq, Repr

/-- `export_excel` (src/app.py lines 80-87): `SELECT * FROM weather_data ORDER
BY timestamp DESC LIMIT 48`, written with `df.to_excel` which always emits the
column headers.  The window size 48 is the literal in the query; the route
takes no caller parameters. -/
def export_excel (s : Store) : TableArtifact :=
  { header := ["timestamp", "temperature", "humidity"]
    rows := (sortDesc s).take 48 }

/-- Minimum of a column, as `df["timestamp"].min()` computes it. -/
def colMin : List String → Option String
  | [] => none
  | t :: ts =>
    some (match colMin ts with
      | none => t
      | some m => min t m)

/-- Maximum of a column, as `df["timestamp"].max()` computes it. -/
def colMax : List String → Option String
  | [] => none
  | t :: ts =>
    some (match colMax ts with
      | none => t
      | some m => max t m)

/-- The value Python's `round` produces for `10 * q`, standing in for the
correctly rounded decimal scaling done by `"%.1f"`. -/
def round1 (q : ℚ) : ℤ := round (10 * q)

/-- Model of the format string `f"{x:.1f}"` (src/app.py lines 146-147): the
value rounded to tenths, written as an optional sign, the integer part, a
decimal point, and exactly one digit. -/
def fmt1 (q : ℚ) : String :=
  (if round1 q < 0 then "-" else "") ++ toString ((round1 q).natAbs / 10) ++ "." ++
    String.singleton (Char.ofNat (48 + (round1 q).natAbs % 10))

/-- Rendering of one nullable numeric cell: sqlite `NULL` becomes pandas `NaN`,
which `f"{x:.1f}"` renders as `"nan"`. -/
def renderVal : Option ℚ → String
  | some q => fmt1 q
  | none => "nan"

/-- `row["timestamp"].strftime("%Y-%m-%d %H:%M")` on an ISO-8601 string of the
form `YYYY-MM-DDTHH:MM`: the `T` separator becomes a space. -/
def renderTs (t : String) : String := t.replace "T" " "

/-- One data row of the PDF sample table (src/app.py lines 143-148). -/
def renderRow (r : Obs) : List String :=
  [renderTs r.timestamp, renderVal r.temperature, renderVal r.humidity]

/-- The header row of the PDF sample table (src/app.py line 142). -/
def sampleHeader : List String :=
  ["Timestamp", "Temperature (°C)", "Humidity (%)"]

/-- The content of the generated PDF that the claims speak about: the location
line, the two ends of the date-range line, and the sample table. -/
structure Report where
  lat : String
  lon : String
  rangeStart : String
  rangeEnd : String
  sampleTable : List (List String)
deriving DecidableEq, Repr

/-- Failure of the report route. -/
inductive ReportErr where
  | noData
deriving DecidableEq, Repr

/-- `export_pdf` (src/app.py lines 91-153): read the whole table ascending;
if it is empty answer the `No data available` error (HTTP 404); otherwise build
the document: location from the optional query parameters with `"N/A"`
placeholders, date range `min → max` over the full timestamp column, and a
sample table of the first 10 rows with numeric cells formatted by `fmt1`. -/
def export_pdf (lat lon : Option String) (s : Store) : Except ReportErr Report :=
  let sorted := sortAsc s
  if sorted.isEmpty then .error .noData
  else
    .ok { lat := lat.getD "N/A"
          lon := lon.getD "N/A"
          rangeStart := (colMin (sorted.map (·.timestamp))).getD ""
          rangeEnd := (colMax (sorted.map (·.timestamp))).getD ""
          sampleTable := sampleHeader :: (sorted.take 10).map renderRow }

/-- Number of characters after the last decimal point of a rendered cell (the
whole string when it has no point). -/
def fracLen (str : String) : Nat :=
  (str.toList.reverse.takeWhile (fun c => c ≠ '.')).length

/-- The rendered cell has a decimal point followed by exactly one character:
the documented `"%.1f"` contract. -/
def oneFracDigit (str : String) : Prop :=
  '.' ∈ str.toList ∧ fracLen str = 1

instance : DecidablePred oneFracDigit := fun s =>
  inferInstanceAs (Decidable ('.' ∈ s.toList ∧ fracLen s = 1))

/-- The decoded provider payload `data["hourly"]`: three parallel lists. -/
structure ProviderResponse where
  timestamps : List String
  temperatures : List (Option ℚ)
  humidities : List (Option ℚ)
deriving DecidableEq, Repr

/-- Python's `zip(timestamps, temperatures, humidities)` (src/app.py line 59):
pairs positionally and stops at the shortest list. -/
def zipObs : List String → List (Option ℚ) → List (Option ℚ) → List Obs
  | t :: ts, x :: xs, y :: ys => ⟨t, x, y⟩ :: zipObs ts xs ys
  | _, _, _ => []

/-- Python truthiness of `request.args.get(...)`: `not v` holds when the
parameter is absent or the empty string. -/
def falsy : Option String → Bool
  | none => true
  | some v => v.isEmpty

/-- The JSON body answered by the ingest route. -/
inductive ApiResult where
  /-- `{"message": "Weather data saved successfully", "records": n}` (200). -/
  | saved (records : Nat)
  /-- `{"error": "Missing lat or lon"}` (400). -/
  | missingParam
  /-- `{"error": "Request failed: ..."}` (500), from `RequestException`. -/
  | requestFailed
  /-- `{"error": "Other error: ..."}` (500), from the generic handler. -/
  | otherError
deriving DecidableEq, Repr

/-- What one call of the ingest route leaves behind: the JSON result, the
committed state of the Store, and whether the provider request was issued. -/
structure IngestOutcome where
  result : ApiResult
  store : Store
  providerCalled : Bool
deriving DecidableEq, Repr

/-- The `for ... c.execute(...)` loop (src/app.py lines 59-66) running inside
the implicit sqlite transaction.  `pending` is the uncommitted connection-local
state; `failAt = some j` models the `execute` for index `j` raising a storage
exception, in which case the loop aborts with nothing committed. -/
def runUpserts (pending : Store) : List Obs → Nat → Option Nat → Option Store
  | [], _, _ => some pending
  | o :: rest, i, failAt =>
    if failAt = some i then none
    else runUpserts (upsert pending o) rest (i + 1) failAt

/-- `weather_report` (src/app.py lines 33-75).  `provider` is the outcome the
single `requests.get` would deliver; `failAt` injects a persistence failure
into the upsert loop.  On the validation failure no request is issued and the
Store is untouched; on a loop failure the exception reaches the generic
handler before `conn.commit()`, so the transaction rolls back and the
committed Store is unchanged; on success the batch is committed and the route
reports `len(timestamps)` as the record count. -/
def weather_report (lat lon : Option String) (provider : Except Unit ProviderResponse)
    (failAt : Option Nat) (s : Store) : IngestOutcome :=
  if falsy lat || falsy lon then
    { result := .missingParam, store := s, providerCalled := false }
  else
    match provider with
    | .error _ => { result := .requestFailed, store := s, providerCalled := true }
    | .ok d =>
      match runUpserts s (zipObs d.timestamps d.temperatures d.humidities) 0 failAt with
      | none => { result := .otherError, store := s, providerCalled := true }
      | some pending =>
        { result := .saved d.timestamps.length, store := pending, providerCalled := true }

/-- Distinct ISO-like timestamps `2024-01-01T00:00` … `2024-01-01T00:59` for
concrete stores. -/
def mkTs (i : Nat) : String :=
  "2024-01-01T00:" ++ String.mk [Char.ofNat (48 + i / 10), Char.ofNat (48 + i % 10)]

/-- A concrete store of `n` rows with distinct timestamps. -/
def mkStore (n : Nat) : Store :=
  (List.range n).map (fun i => ⟨mkTs i, some (i : ℚ), some ((i : ℚ) / 2)⟩)

/-- A provider payload whose three sequences have unequal lengths. -/
def respUneven : ProviderResponse :=
  { timestamps := ["2024-01-01T00:00", "2024-01-01T01:00"]
    temperatures := [some 5]
    humidities := [some 80, some 82] }

/-- A well-formed provider payload of two observations. -/
def respEven : ProviderResponse :=
  { timestamps := ["2024-01-01T00:00", "2024-01-01T01:00"]
    temperatures := [some 1, some 3]
    humidities := [some 2, some 4] }

/-- The first observation of the spec's re-ingest scenario. -/
def rowA1 : Obs := ⟨"2024-01-01T00:00", some 5, some 80⟩

/-- The same timestamp re-ingested with a new temperature. -/
def rowA2 : Obs := ⟨"2024-01-01T00:00", some 9.9, some 80⟩

/-- A second, distinct-timestamp observation. -/
def rowB : Obs := ⟨"2024-01-01T01:00", some 5.5, some 82⟩

/-- A row whose timestamp occurs in no provider payload above. -/
def rowC : Obs := ⟨"2023-12-31T23:00", some 7, some 70⟩

/-! Helper lemmas about the primary-key column. -/

theorem keys_map_replace (s : Store) (o : Obs) :
    keys (s.map (fun r => if r.timestamp = o.timestamp then o else r)) = keys s := by
  unfold keys
  rw [List.map_map]
  apply List.map_congr_left
  intro r _
  by_cases h : r.timestamp = o.timestamp
  · show (if r.timestamp = o.timestamp then o else r).timestamp = r.timestamp
    rw [if_pos h, ← h]
  · show (if r.timestamp = o.timestamp then o else r).timestamp = r.timestamp
    rw [if_neg h]

theorem keys_upsert (s : Store) (o : Obs) :
    keys (upsert s o) =
      if o.timestamp ∈ keys s then keys s else keys s ++ [o.timestamp] := by
  unfold upsert
  by_cases h : o.timestamp ∈ keys s
  · rw [if_pos h, if_pos h, keys_map_replace]
  · rw [if_neg h, if_neg h]
    unfold keys
    rw [List.map_append]
    rfl

theorem nodupKeys_upsert (s : Store) (o : Obs) (h : nodupKeys s) :
    nodupKeys (upsert s o) := by
  unfold nodupKeys
  rw [keys_upsert]
  by_cases hm : o.timestamp ∈ keys s
  · rw [if_pos hm]; exact h
  · rw [if_neg hm]
    rw [List.nodup_append]
    exact ⟨h, List.nodup_singleton _, by simpa using hm⟩

theorem keys_toFinset_upsert (s : Store) (o : Obs) :
    (keys (upsert s o)).toFinset = insert o.timestamp (keys s).toFinset := by
  rw [keys_upsert]
  by_cases hm : o.timestamp ∈ keys s
  · rw [if_pos hm]
    exact (Finset.insert_eq_self.2 (List.mem_toFinset.2 hm)).symm
  · rw [if_neg hm, List.toFinset_append, Finset.insert_eq, Finset.union_comm]
    simp

theorem applyBatch_cons (s : Store) (o : Obs) (rest : List Obs) :
    applyBatch s (o :: rest) = applyBatch (upsert s o) rest := rfl

theorem keys_toFinset_applyBatch (obs : List Obs) (s : Store) :
    (keys (applyBatch s obs)).toFinset =
      (keys s).toFinset ∪ (obs.map (·.timestamp)).toFinset := by
  induction obs generalizing s with
  | nil => simp [applyBatch]
  | cons o rest ih =>
    rw [applyBatch_cons, ih (upsert s o), keys_toFinset_upsert]
    simp [Finset.insert_union, Finset.union_insert]

theorem nodupKeys_applyBatch (obs : List Obs) (s : Store) (h : nodupKeys s) :
    nodupKeys (applyBatch s obs) := by
  induction obs generalizing s with
  | nil => exact h
  | cons o rest ih => exact ih (upsert s o) (nodupKeys_upsert s o h)

/-! Helper lemmas about point lookups. -/

theorem lookup_eq_none_of_not_mem (s : Store) (t : String) (h : t ∉ keys s) :
    lookup s t = none := by
  induction s with
  | nil => rfl
  | cons r rest ih =>
    simp only [keys, List.map_cons, List.mem_cons, not_or] at h
    unfold lookup
    rw [List.find?_cons_of_neg]
    · exact ih (by simpa [keys] using h.2)
    · simp only [beq_iff_eq]
      exact fun hc => h.1 hc.symm

theorem find?_map_replace (s : Store) (o : Obs) (hm : o.timestamp ∈ keys s) :
    (s.map (fun r => if r.timestamp = o.timestamp then o else r)).find?
      (fun r => r.timestamp == o.timestamp) = some o := by
  induction s with
  | nil => simp [keys] at hm
  | cons r rest ih =>
    by_cases h : r.timestamp = o.timestamp
    · simp only [List.map_cons, if_pos h]
      rw [List.find?_cons_of_pos]
      simp
    · simp only [List.map_cons, if_neg h]
      rw [List.find?_cons_of_neg]
      · apply ih
        simp only [keys, List.map_cons, List.mem_cons] at hm
        rcases hm with h1 | h2
        · exact absurd h1.symm h
        · exact h2
      · simp only [beq_iff_eq]
        exact fun hc => h hc

theorem find?_append_single (s : Store) (o : Obs) (hm : o.timestamp ∉ keys s) :
    (s ++ [o]).find? (fun r => r.timestamp == o.timestamp) = some o := by
  induction s with
  | nil =>
    rw [List.nil_append, List.find?_cons_of_pos]
    simp
  | cons r rest ih =>
    simp only [keys, List.map_cons, List.mem_cons, not_or] at hm
    rw [List.cons_append, List.find?_cons_of_neg]
    · exact ih (by simpa [keys] using hm.2)
    · simp only [beq_iff_eq]
      exact fun hc => hm.1 hc.symm

theorem lookup_upsert_self (s : Store) (o : Obs) :
    lookup (upsert s o) o.timestamp = some o := by
  unfold upsert lookup
  by_cases hm : o.timestamp ∈ keys s
  · rw [if_pos hm]
    exact find?_map_replace s o hm
  · rw [if_neg hm]
    exact find?_append_single s o hm

theorem find?_map_replace_other (s : Store) (o : Obs) (t : String) (h : t ≠ o.timestamp) :
    (s.map (fun r => if r.timestamp = o.timestamp then o else r)).find?
      (fun r => r.timestamp == t) = s.find? (fun r => r.timestamp == t) := by
  induction s with
  | nil => rfl
  | cons r rest ih =>
    by_cases hr : r.timestamp = o.timestamp
    · have ho : ¬ ((fun r : Obs => r.timestamp == t) o = true) := by
        simp only [beq_iff_eq]
        exact fun hc => h hc.symm
      have hrn : ¬ ((fun r : Obs => r.timestamp == t) r = true) := by
        simp only [beq_iff_eq, hr]
        exact fun hc => h hc.symm
      simp only [List.map_cons, if_pos hr]
      rw [@List.find?_cons_of_neg _ (fun r : Obs => r.timestamp == t) o _ ho,
        @List.find?_cons_of_neg _ (fun r : Obs => r.timestamp == t) r _ hrn, ih]
    · simp only [List.map_cons, if_neg hr]
      by_cases hrt : r.timestamp = t
      · have hp : ((fun r : Obs => r.timestamp == t) r = true) := by simp [hrt]
        rw [@List.find?_cons_of_pos _ (fun r : Obs => r.timestamp == t) r _ hp,
          @List.find?_cons_of_pos _ (fun r : Obs => r.timestamp == t) r _ hp]
      · have hp : ¬ ((fun r : Obs => r.timestamp == t) r = true) := by simp [hrt]
        rw [@List.find?_cons_of_neg _ (fun r : Obs => r.timestamp == t) r _ hp,
          @List.find?_cons_of_neg _ (fun r : Obs => r.timestamp == t) r _ hp, ih]

theorem find?_append_single_other (s : Store) (o : Obs) (t : String) (h : t ≠ o.timestamp) :
    (s ++ [o]).find? (fun r => r.timestamp == t) = s.find? (fun r => r.timestamp == t) := by
  induction s with
  | nil =>
    rw [List.nil_append]
    have hp : ¬ ((fun r : Obs => r.timestamp == t) o = true) := by
      simp only [beq_iff_eq]
      exact fun hc => h hc.symm
    rw [@List.find?_cons_of_neg _ (fun r : Obs => r.timestamp == t) o _ hp]
  | cons r rest ih =>
    by_cases hrt : r.timestamp = t
    · have hp : ((fun r : Obs => r.timestamp == t) r = true) := by simp [hrt]
      rw [List.cons_append, @List.find?_cons_of_pos _ (fun r : Obs => r.timestamp == t) r _ hp,
        @List.find?_cons_of_pos _ (fun r : Obs => r.timestamp == t) r _ hp]
    · have hp : ¬ ((fun r : Obs => r.timestamp == t) r = true) := by simp [hrt]
      rw [List.cons_append, @List.find?_cons_of_neg _ (fun r : Obs => r.timestamp == t) r _ hp,
        @List.find?_cons_of_neg _ (fun r : Obs => r.timestamp == t) r _ hp, ih]

theorem lookup_upsert_other (s : Store) (o : Obs) (t : String) (h : t ≠ o.timestamp) :
    lookup (upsert s o) t = lookup s t := by
  unfold upsert lookup
  by_cases hm : o.timestamp ∈ keys s
  · rw [if_pos hm]
    exact find?_map_replace_other s o t h
  · rw [if_neg hm]
    exact find?_append_single_other s o t h

theorem lookup_upsert_isSome (s : Store) (o : Obs) (t : String)
    (h : (lookup s t).isSome) : (lookup (upsert s o) t).isSome := by
  by_cases ht : t = o.timestamp
  · subst ht
    rw [lookup_upsert_self]
    rfl
  · rw [lookup_upsert_other s o t ht]
    exact h

theorem lookup_applyBatch_not_mem (obs : List Obs) (s : Store) (t : String)
    (h : t ∉ obs.map (·.timestamp)) :
    lookup (applyBatch s obs) t = lookup s t := by
  induction obs generalizing s with
  | nil => rfl
  | cons o rest ih =>
    simp only [List.map_cons, List.mem_cons, not_or] at h
    rw [applyBatch_cons, ih (upsert s o) h.2, lookup_upsert_other s o t h.1]

theorem lookup_applyBatch_isSome (obs : List Obs) (s : Store) (t : String)
    (h : (lookup s t).isSome) : (lookup (applyBatch s obs) t).isSome := by
  induction obs generalizing s with
  | nil => exact h
  | cons o rest ih => exact ih (upsert s o) (lookup_upsert_isSome s o t h)

/-! Helper lemmas about `rowsFor`. -/

theorem rowsFor_eq_nil_of_not_mem (s : Store) (t : String) (h : t ∉ keys s) :
    rowsFor t s = [] := by
  induction s with
  | nil => rfl
  | cons r rest ih =>
    simp only [keys, List.map_cons, List.mem_cons, not_or] at h
    unfold rowsFor
    rw [List.filter_cons, if_neg (by simp only [decide_eq_true_eq]; exact fun hc => h.1 hc.symm)]
    exact ih (by simpa [keys] using h.2)

theorem rowsFor_eq_single (s : Store) (t : String) (o : Obs) (hnd : nodupKeys s)
    (hl : lookup s t = some o) : rowsFor t s = [o] := by
  induction s with
  | nil => simp [lookup] at hl
  | cons r rest ih =>
    have hcons : r.timestamp ∉ keys rest ∧ (keys rest).Nodup := by
      simpa [nodupKeys, keys, List.nodup_cons] using hnd
    by_cases hrt : r.timestamp = t
    · have hor : o = r := by
        unfold lookup at hl
        rw [List.find?_cons_of_pos _ (by simp [hrt])] at hl
        exact (Option.some_inj.1 hl).symm
      subst hor
      unfold rowsFor
      rw [List.filter_cons, if_pos (by simp [hrt])]
      have : rowsFor t rest = [] := by
        apply rowsFor_eq_nil_of_not_mem
        rw [← hrt]
        exact hcons.1
      unfold rowsFor at this
      rw [this]
    · unfold lookup at hl
      rw [List.find?_cons_of_neg _ (by simp [hrt])] at hl
      unfold rowsFor
      rw [List.filter_cons, if_neg (by simp [hrt])]
      exact ih hcons.2 hl

/-! Helper lemmas about the positional zip of the provider payload. -/

theorem length_zipObs (a : List String) (b c : List (Option ℚ)) :
    (zipObs a b c).length = min a.length (min b.length c.length) := by
  induction a generalizing b c with
  | nil => cases b <;> cases c <;> simp [zipObs]
  | cons t ts ih =>
    cases b with
    | nil => simp [zipObs]
    | cons x xs =>
      cases c with
      | nil => simp [zipObs]
      | cons y ys =>
        simp only [zipObs, List.length_cons, ih xs ys]
        omega

theorem mem_keys_zipObs (a : List String) (b c : List (Option ℚ)) (t : String)
    (h : t ∈ (zipObs a b c).map (·.timestamp)) : t ∈ a := by
  induction a generalizing b c with
  | nil => cases b <;> cases c <;> simp [zipObs] at h
  | cons x xs ih =>
    cases b with
    | nil => simp [zipObs] at h
    | cons p ps =>
      cases c with
      | nil => simp [zipObs] at h
      | cons q qs =>
        simp only [zipObs, List.map_cons, List.mem_cons] at h
        rcases h with h | h
        · exact List.mem_cons.2 (Or.inl h)
        · exact List.mem_cons.2 (Or.inr (ih ps qs h))

/-! Helper lemmas about the transactional upsert loop. -/

theorem runUpserts_none_eq (obs : List Obs) (pending : Store) (k : Nat) :
    runUpserts pending obs k none = some (applyBatch pending obs) := by
  induction obs generalizing pending k with
  | nil => rfl
  | cons o rest ih =>
    unfold runUpserts
    rw [if_neg (by simp)]
    exact ih (upsert pending o) (k + 1)

theorem runUpserts_fail (obs : List Obs) (pending : Store) (k j : Nat)
    (h₁ : k ≤ j) (h₂ : j < k + obs.length) :
    runUpserts pending obs k (some j) = none := by
  induction obs generalizing pending k with
  | nil => simp only [List.length_nil] at h₂; omega
  | cons o rest ih =>
    unfold runUpserts
    by_cases hk : j = k
    · rw [if_pos (by rw [hk])]
    · rw [if_neg (by simp only [Option.some_inj]; omega)]
      exact ih (upsert pending o) (k + 1) (by omega)
        (by simp only [List.length_cons] at h₂; omega)

/-! Helper lemmas about the column minimum and maximum. -/

theorem colMin_eq_none (l : List String) (h : colMin l = none) : l = [] := by
  cases l with
  | nil => rfl
  | cons x xs => simp [colMin] at h

theorem colMax_eq_none (l : List String) (h : colMax l = none) : l = [] := by
  cases l with
  | nil => rfl
  | cons x xs => simp [colMax] at h

theorem colMin_mem (l : List String) (m : String) (h : colMin l = some m) : m ∈ l := by
  induction l generalizing m with
  | nil => simp [colMin] at h
  | cons t ts ih =>
    unfold colMin at h
    cases hc : colMin ts with
    | none =>
      rw [hc] at h
      have hm : t = m := by simpa using h
      subst hm
      exact List.mem_cons_self t ts
    | some mw =>
      rw [hc] at h
      have hm : min t mw = m := by simpa using h
      rcases min_choice t mw with h' | h'
      · rw [h'] at hm
        subst hm
        exact List.mem_cons_self t ts
      · rw [h'] at hm
        subst hm
        exact List.mem_cons_of_mem t (ih mw hc)

theorem colMax_mem (l : List String) (m : String) (h : colMax l = some m) : m ∈ l := by
  induction l generalizing m with
  | nil => simp [colMax] at h
  | cons t ts ih =>
    unfold colMax at h
    cases hc : colMax ts with
    | none =>
      rw [hc] at h
      have hm : t = m := by simpa using h
      subst hm
      exact List.mem_cons_self t ts
    | some mw =>
      rw [hc] at h
      have hm : max t mw = m := by simpa using h
      rcases max_choice t mw with h' | h'
      · rw [h'] at hm
        subst hm
        exact List.mem_cons_self t ts
      · rw [h'] at hm
        subst hm
        exact List.mem_cons_of_mem t (ih mw hc)

theorem colMin_le (l : List String) (m : String) (h : colMin l = some m) :
    ∀ t ∈ l, m ≤ t := by
  induction l generalizing m with
  | nil => simp
  | cons x xs ih =>
    intro t ht
    unfold colMin at h
    cases hc : colMin xs with
    | none =>
      have hxs : xs = [] := colMin_eq_none xs hc
      subst hxs
      rw [hc] at h
      have hm : x = m := by simpa using h
      have ht' : t = x := by simpa using ht
      rw [ht', hm]
    | some mw =>
      rw [hc] at h
      have hm : min x mw = m := by simpa using h
      rcases List.mem_cons.1 ht with h' | h'
      · rw [h', ← hm]
        exact min_le_left _ _
      · rw [← hm]
        exact le_trans (min_le_right x mw) (ih mw hc t h')

theorem le_colMax (l : List String) (m : String) (h : colMax l = some m) :
    ∀ t ∈ l, t ≤ m := by
  induction l generalizing m with
  | nil => simp
  | cons x xs ih =>
    intro t ht
    unfold colMax at h
    cases hc : colMax xs with
    | none =>
      have hxs : xs = [] := colMax_eq_none xs hc
      subst hxs
      rw [hc] at h
      have hm : x = m := by simpa using h
      have ht' : t = x := by simpa using ht
      rw [ht', hm]
    | some mw =>
      rw [hc] at h
      have hm : max x mw = m := by simpa using h
      rcases List.mem_cons.1 ht with h' | h'
      · rw [h', ← hm]
        exact le_max_left _ _
      · rw [← hm]
        exact le_trans (ih mw hc t h') (le_max_right x mw)

theorem colMin_isSome (l : List String) (h : l ≠ []) : (colMin l).isSome := by
  cases l with
  | nil => exact absurd rfl h
  | cons x xs => simp [colMin]

theorem colMax_isSome (l : List String) (h : l ≠ []) : (colMax l).isSome := by
  cases l with
  | nil => exact absurd rfl h
  | cons x xs => simp [colMax]

/-! Helper lemmas about the numeric cell format. -/

theorem digitChar_ne_dot (r : Nat) (h : r < 10) : Char.ofNat (48 + r) ≠ '.' := by
  interval_cases r <;> decide

theorem oneFracDigit_concat (s : String) (c : Char) (hc : c ≠ '.') :
    oneFracDigit (s ++ "." ++ String.singleton c) := by
  unfold oneFracDigit fracLen
  constructor
  · show '.' ∈ (s ++ "." ++ String.singleton c).data
    simp only [String.data_append]
    refine List.mem_append.2 (Or.inl ?_)
    refine List.mem_append.2 (Or.inr ?_)
    show ('.' : Char) ∈ ['.']
    simp
  · show (((s ++ "." ++ String.singleton c).data.reverse.takeWhile (fun x => x ≠ '.')).length = 1)
    simp only [String.data_append]
    show ((((s.data ++ ['.']) ++ [c]).reverse.takeWhile (fun x => x ≠ '.')).length = 1)
    rw [List.reverse_append, List.reverse_append]
    simp only [List.reverse_cons, List.reverse_nil, List.nil_append, List.cons_append,
      List.singleton_append]
    rw [List.takeWhile_cons]
    simp [hc]

theorem oneFracDigit_fmt1 (q : ℚ) : oneFracDigit (fmt1 q) := by
  unfold fmt1
  exact oneFracDigit_concat _ _ (digitChar_ne_dot _ (Nat.mod_lt _ (by norm_num)))

/-! Helper lemmas about the ordered reads. -/

theorem sortDesc_perm (s : Store) : (sortDesc s).Perm s := List.perm_insertionSort _ _

theorem sortAsc_perm (s : Store) : (sortAsc s).Perm s := List.perm_insertionSort _ _

theorem sortDesc_sorted (s : Store) : List.Sorted tsDescRel (sortDesc s) :=
  List.sorted_insertionSort _ _

theorem sortAsc_sorted (s : Store) : List.Sorted tsAscRel (sortAsc s) :=
  List.sorted_insertionSort _ _

theorem pairwise_ne_of_nodupKeys (s : Store) (hnd : nodupKeys s) :
    List.Pairwise (fun a b : Obs => a.timestamp ≠ b.timestamp) s := by
  have h2 : (List.map (fun r : Obs => r.timestamp) s).Nodup := hnd
  exact List.pairwise_map.mp h2

theorem nodupKeys_perm (s s' : Store) (hp : s.Perm s') (hnd : nodupKeys s) : nodupKeys s' :=
  ((hp.map (fun r : Obs => r.timestamp)).nodup_iff).mp hnd

theorem sortDesc_strict (s : Store) (hnd : nodupKeys s) :
    List.Pairwise tsStrictDescRel (sortDesc s) := by
  have hne : List.Pairwise (fun a b : Obs => a.timestamp ≠ b.timestamp) (sortDesc s) :=
    pairwise_ne_of_nodupKeys _ (nodupKeys_perm s (sortDesc s) (sortDesc_perm s).symm hnd)
  have hsorted : List.Pairwise tsDescRel (sortDesc s) := sortDesc_sorted s
  refine (hsorted.and hne).imp ?_
  intro a b h
  unfold tsStrictDescRel
  exact lt_of_le_of_ne h.1 (Ne.symm h.2)

theorem mem_keys_upsert_self (s : Store) (o : Obs) :
    o.timestamp ∈ keys (upsert s o) := by
  rw [keys_upsert]
  by_cases hm : o.timestamp ∈ keys s
  · rw [if_pos hm]
    exact hm
  · rw [if_neg hm]
    exact List.mem_append.2 (Or.inr (List.mem_singleton.2 rfl))

theorem length_upsert_mem (s : Store) (o : Obs) (hm : o.timestamp ∈ keys s) :
    (upsert s o).length = s.length := by
  unfold upsert
  rw [if_pos hm, List.length_map]

/-! ## The claims -/

/-- C1: for every sequence of upserts applied to the initially empty Store,
the number of rows equals the number of distinct timestamp values ever
upserted (primary-key uniqueness under re-fetch). -/
theorem c1_store_size_eq_distinct_timestamps (obs : List Obs) :
    (applyBatch [] obs).length = ((obs.map (·.timestamp)).toFinset).card := by
  have hnd : nodupKeys (applyBatch [] obs) :=
    nodupKeys_applyBatch obs [] (by simp [nodupKeys, keys])
  have hlen : (applyBatch [] obs).length = (keys (applyBatch [] obs)).length := by
    simp [keys]
  rw [hlen, ← List.toFinset_card_of_nodup hnd, keys_toFinset_applyBatch]
  simp [keys]

/-- C2: upserting the same timestamp twice (possibly different values) leaves
the Store with exactly one row for that timestamp, holding the second write's
values; the operation is total (no error path) and adds no duplicate row. -/
theorem c2_upsert_last_write_wins (s : Store) (o₁ o₂ : Obs)
    (hnd : nodupKeys s) (hts : o₁.timestamp = o₂.timestamp) :
    rowsFor o₁.timestamp (upsert (upsert s o₁) o₂) = [o₂] ∧
    lookup (upsert (upsert s o₁) o₂) o₁.timestamp = some o₂ ∧
    (upsert (upsert s o₁) o₂).length = (upsert s o₁).length ∧
    nodupKeys (upsert (upsert s o₁) o₂) := by
  have hnd2 : nodupKeys (upsert (upsert s o₁) o₂) :=
    nodupKeys_upsert _ o₂ (nodupKeys_upsert s o₁ hnd)
  have hl : lookup (upsert (upsert s o₁) o₂) o₁.timestamp = some o₂ := by
    rw [hts]
    exact lookup_upsert_self _ o₂
  refine ⟨?_, hl, ?_, hnd2⟩
  · exact rowsFor_eq_single _ _ _ hnd2 hl
  · apply length_upsert_mem
    rw [← hts]
    exact mem_keys_upsert_self s o₁

/-- Witness for C2: the spec's scenario, where timestamp `2024-01-01T00:00` is
first stored with temperature `5.0` and then re-upserted with `9.9`. -/
theorem c2_witness :
    nodupKeys [rowB] ∧ rowA1.timestamp = rowA2.timestamp ∧
    (rowsFor rowA1.timestamp (upsert (upsert [rowB] rowA1) rowA2) = [rowA2] ∧
     lookup (upsert (upsert [rowB] rowA1) rowA2) rowA1.timestamp = some rowA2 ∧
     (upsert (upsert [rowB] rowA1) rowA2).length = (upsert [rowB] rowA1).length ∧
     nodupKeys (upsert (upsert [rowB] rowA1) rowA2)) :=
  ⟨by decide, rfl, c2_upsert_last_write_wins [rowB] rowA1 rowA2 (by decide) rfl⟩

/-- C4: on the empty Store the table export still yields a well-formed
artifact with the header row and zero data rows, while the report export
fails with the no-data error. -/
theorem c4_empty_store_asymmetry (lat lon : Option String) :
    export_excel ([] : Store) =
      { header := ["timestamp", "temperature", "humidity"], rows := [] } ∧
    export_pdf lat lon ([] : Store) = .error .noData :=
  ⟨rfl, rfl⟩

/-- C6: when either coordinate is missing, ingest answers the missing-parameter
error, issues no provider request, and leaves the Store unchanged. -/
theorem c6_missing_param (lat lon : Option String) (provider : Except Unit ProviderResponse)
    (failAt : Option Nat) (s : Store) (h : lat = none ∨ lon = none) :
    weather_report lat lon provider failAt s =
      { result := .missingParam, store := s, providerCalled := false } := by
  rcases h with h | h <;> subst h
  · unfold weather_report
    rw [if_pos (by simp [falsy])]
  · unfold weather_report
    rw [if_pos (by simp [falsy])]

/-- Witness for C6: the spec's scenario `ingest(latitude=None, longitude="10")`. -/
theorem c6_witness :
    ((none : Option String) = none ∨ (some "10" : Option String) = none) ∧
    weather_report none (some "10") (.ok respEven) none [] =
      { result := .missingParam, store := [], providerCalled := false } :=
  ⟨Or.inl rfl, c6_missing_param none (some "10") (.ok respEven) none [] (Or.inl rfl)⟩

/-- C3: the table export returns the `min(48, totalRows)` most recent rows,
sorted strictly descending by timestamp; every returned row belongs to the
Store, and every Store row left out is strictly older than every returned
row.  The window bound `48` is the literal constant of `export_excel`, which
takes no caller parameter. -/
theorem c3_export_table_window (s : Store) (hnd : nodupKeys s) :
    (export_excel s).rows.length = min 48 s.length ∧
    List.Pairwise tsStrictDescRel (export_excel s).rows ∧
    (∀ a ∈ (export_excel s).rows, a ∈ s) ∧
    (∀ b ∈ s, b ∉ (export_excel s).rows → ∀ a ∈ (export_excel s).rows,
      b.timestamp < a.timestamp) := by
  simp only [export_excel]
  refine ⟨?_, ?_, ?_, ?_⟩
  · rw [List.length_take, (sortDesc_perm s).length_eq]
  · exact List.Pairwise.sublist (List.take_sublist _ _) (sortDesc_strict s hnd)
  · intro a ha
    exact (sortDesc_perm s).mem_iff.mp (List.mem_of_mem_take ha)
  · intro b hb hnb a ha
    have hb' : b ∈ sortDesc s := (sortDesc_perm s).mem_iff.mpr hb
    have hsplit : (sortDesc s).take 48 ++ (sortDesc s).drop 48 = sortDesc s :=
      List.take_append_drop 48 (sortDesc s)
    have hbd : b ∈ (sortDesc s).drop 48 := by
      rw [← hsplit] at hb'
      rcases List.mem_append.mp hb' with h | h
      · exact absurd h hnb
      · exact h
    have hpw := sortDesc_strict s hnd
    rw [← hsplit] at hpw
    exact (List.pairwise_append.mp hpw).2.2 a ha b hbd

/-- Witness for C3: the spec's scenario of a Store with 60 distinct-timestamp
rows, for which the export returns exactly `min 48 60 = 48` rows. -/
theorem c3_witness :
    nodupKeys (mkStore 60) ∧
    ((export_excel (mkStore 60)).rows.length = min 48 (mkStore 60).length ∧
     List.Pairwise tsStrictDescRel (export_excel (mkStore 60)).rows ∧
     (∀ a ∈ (export_excel (mkStore 60)).rows, a ∈ mkStore 60) ∧
     (∀ b ∈ mkStore 60, b ∉ (export_excel (mkStore 60)).rows →
       ∀ a ∈ (export_excel (mkStore 60)).rows, b.timestamp < a.timestamp)) :=
  ⟨by decide, c3_export_table_window (mkStore 60) (by decide)⟩

theorem weather_report_ok (lat lon : Option String) (d : ProviderResponse)
    (failAt : Option Nat) (s : Store)
    (hlat : falsy lat = false) (hlon : falsy lon = false) :
    weather_report lat lon (.ok d) failAt s =
      match runUpserts s (zipObs d.timestamps d.temperatures d.humidities) 0 failAt with
      | none => { result := .otherError, store := s, providerCalled := true }
      | some pending =>
        { result := .saved d.timestamps.length, store := pending, providerCalled := true } := by
  unfold weather_report
  rw [if_neg (by simp [hlat, hlon])]

theorem export_pdf_ok (lat lon : Option String) (s : Store) (hne : s ≠ []) :
    export_pdf lat lon s = .ok
      { lat := lat.getD "N/A"
        lon := lon.getD "N/A"
        rangeStart := (colMin ((sortAsc s).map (·.timestamp))).getD ""
        rangeEnd := (colMax ((sortAsc s).map (·.timestamp))).getD ""
        sampleTable := sampleHeader :: ((sortAsc s).take 10).map renderRow } := by
  have hlen : (sortAsc s).length = s.length := (sortAsc_perm s).length_eq
  have hno : ¬ ((sortAsc s).isEmpty = true) := by
    rw [List.isEmpty_iff]
    intro h0
    apply hne
    have hl := congrArg List.length h0
    rw [hlen] at hl
    exact List.length_eq_zero.mp hl
  simp only [export_pdf]
  rw [if_neg hno]

/-- C5: for every non-empty Store the report succeeds, its date-range start is
a stored timestamp that bounds every stored timestamp from below, its end is a
stored timestamp that bounds every stored timestamp from above (so the range
is `min → max` over the whole history), and this holds while the sample table
still shows only the first 10 rows of the ascending read. -/
theorem c5_report_date_range (s : Store) (lat lon : Option String)
    (hne : s ≠ []) (_hnd : nodupKeys s) :
    ∃ rep, export_pdf lat lon s = .ok rep ∧
      rep.rangeStart ∈ keys s ∧ rep.rangeEnd ∈ keys s ∧
      (∀ t ∈ keys s, rep.rangeStart ≤ t ∧ t ≤ rep.rangeEnd) ∧
      rep.sampleTable = sampleHeader :: ((sortAsc s).take 10).map renderRow := by
  have hcolne : (sortAsc s).map (·.timestamp) ≠ [] := by
    intro h0
    apply hne
    have hl := congrArg List.length h0
    rw [List.length_map, (sortAsc_perm s).length_eq] at hl
    exact List.length_eq_zero.mp hl
  obtain ⟨m, hm⟩ := Option.isSome_iff_exists.mp (colMin_isSome _ hcolne)
  obtain ⟨M, hM⟩ := Option.isSome_iff_exists.mp (colMax_isSome _ hcolne)
  have hperm : ((sortAsc s).map (·.timestamp)).Perm (keys s) :=
    (sortAsc_perm s).map (fun r : Obs => r.timestamp)
  refine ⟨_, export_pdf_ok lat lon s hne, ?_, ?_, ?_, rfl⟩
  · show (colMin ((sortAsc s).map (·.timestamp))).getD "" ∈ keys s
    rw [hm]
    exact hperm.mem_iff.mp (colMin_mem _ m hm)
  · show (colMax ((sortAsc s).map (·.timestamp))).getD "" ∈ keys s
    rw [hM]
    exact hperm.mem_iff.mp (colMax_mem _ M hM)
  · intro t ht
    have htcol : t ∈ (sortAsc s).map (·.timestamp) := hperm.mem_iff.mpr ht
    constructor
    · show (colMin ((sortAsc s).map (·.timestamp))).getD "" ≤ t
      rw [hm]
      exact colMin_le _ m hm t htcol
    · show t ≤ (colMax ((sortAsc s).map (·.timestamp))).getD ""
      rw [hM]
      exact le_colMax _ M hM t htcol

/-- Witness for C5: a 12-row Store (more rows than the 10 the sample shows). -/
theorem c5_witness :
    (mkStore 12 ≠ [] ∧ nodupKeys (mkStore 12)) ∧
    (∃ rep, export_pdf (some "1") (some "2") (mkStore 12) = .ok rep ∧
      rep.rangeStart ∈ keys (mkStore 12) ∧ rep.rangeEnd ∈ keys (mkStore 12) ∧
      (∀ t ∈ keys (mkStore 12), rep.rangeStart ≤ t ∧ t ≤ rep.rangeEnd) ∧
      rep.sampleTable = sampleHeader :: ((sortAsc (mkStore 12)).take 10).map renderRow) :=
  ⟨⟨by decide, by decide⟩,
    c5_report_date_range (mkStore 12) (some "1") (some "2") (by decide) (by decide)⟩

/-- C9: for every non-empty Store whose rows carry actual (non-null) values,
the report's sample table is the header row followed by the rendering of the
first `min(10, totalRows)` rows of the ascending-by-timestamp read, and every
rendered temperature and humidity cell has a decimal point followed by exactly
one digit, whatever the precision of the source value. -/
theorem c9_sample_table_format (s : Store) (lat lon : Option String)
    (hne : s ≠ []) (hvals : ∀ r ∈ s, r.temperature.isSome ∧ r.humidity.isSome) :
    ∃ rep, export_pdf lat lon s = .ok rep ∧
      rep.sampleTable = sampleHeader :: ((sortAsc s).take 10).map renderRow ∧
      ((sortAsc s).take 10).length = min 10 s.length ∧
      List.Sorted tsAscRel (sortAsc s) ∧ (sortAsc s).Perm s ∧
      (∀ r ∈ (sortAsc s).take 10,
        oneFracDigit (renderVal r.temperature) ∧ oneFracDigit (renderVal r.humidity)) := by
  refine ⟨_, export_pdf_ok lat lon s hne, rfl, ?_, sortAsc_sorted s, sortAsc_perm s, ?_⟩
  · rw [List.length_take, (sortAsc_perm s).length_eq]
  · intro r hr
    have hrs : r ∈ s := (sortAsc_perm s).mem_iff.mp (List.mem_of_mem_take hr)
    obtain ⟨ht, hh⟩ := hvals r hrs
    obtain ⟨qt, hqt⟩ := Option.isSome_iff_exists.mp ht
    obtain ⟨qh, hqh⟩ := Option.isSome_iff_exists.mp hh
    rw [hqt, hqh]
    exact ⟨oneFracDigit_fmt1 qt, oneFracDigit_fmt1 qh⟩

/-- Witness for C9: an 11-row Store with all values present. -/
theorem c9_witness :
    (mkStore 11 ≠ [] ∧ ∀ r ∈ mkStore 11, r.temperature.isSome ∧ r.humidity.isSome) ∧
    (∃ rep, export_pdf none none (mkStore 11) = .ok rep ∧
      rep.sampleTable = sampleHeader :: ((sortAsc (mkStore 11)).take 10).map renderRow ∧
      ((sortAsc (mkStore 11)).take 10).length = min 10 (mkStore 11).length ∧
      List.Sorted tsAscRel (sortAsc (mkStore 11)) ∧ (sortAsc (mkStore 11)).Perm (mkStore 11) ∧
      (∀ r ∈ (sortAsc (mkStore 11)).take 10,
        oneFracDigit (renderVal r.temperature) ∧ oneFracDigit (renderVal r.humidity))) :=
  ⟨⟨by decide, by decide⟩,
    c9_sample_table_format (mkStore 11) none none (by decide) (by decide)⟩

/-- C7 counterexample: on the unequal-length payload `respUneven` (two
timestamps, one temperature, two humidities) the ingest route does not report
any error: it answers success with `records = 2` and commits the single
truncated observation, because Python's `zip` stops at the shortest sequence.
The route's result type has no malformed-response kind at all. -/
theorem c7_counterexample :
    (weather_report (some "1") (some "2") (.ok respUneven) none []).result = .saved 2 ∧
    (weather_report (some "1") (some "2") (.ok respUneven) none []).store =
      [⟨"2024-01-01T00:00", some 5, some 80⟩] := by
  constructor <;> rfl

/-- C7 (amended): on sequences of unequal lengths the ingest route does not
fail and does not preserve all data: it zips positionally, silently truncating
to the shortest of the three sequences, upserts only those observations, and
reports `records` as the length of the timestamp list. -/
theorem c7_truncating_zip (lat lon : Option String) (d : ProviderResponse) (s : Store)
    (hlat : falsy lat = false) (hlon : falsy lon = false) :
    weather_report lat lon (.ok d) none s =
      { result := .saved d.timestamps.length
        store := applyBatch s (zipObs d.timestamps d.temperatures d.humidities)
        providerCalled := true } ∧
    (zipObs d.timestamps d.temperatures d.humidities).length =
      min d.timestamps.length (min d.temperatures.length d.humidities.length) := by
  constructor
  · rw [weather_report_ok lat lon d none s hlat hlon, runUpserts_none_eq]
  · exact length_zipObs _ _ _

/-- Witness for the amended C7, at the unequal-length payload. -/
theorem c7_truncating_zip_witness :
    (falsy (some "1") = false ∧ falsy (some "2") = false) ∧
    (weather_report (some "1") (some "2") (.ok respUneven) none [] =
      { result := .saved respUneven.timestamps.length
        store := applyBatch []
          (zipObs respUneven.timestamps respUneven.temperatures respUneven.humidities)
        providerCalled := true } ∧
     (zipObs respUneven.timestamps respUneven.temperatures respUneven.humidities).length =
       min respUneven.timestamps.length
         (min respUneven.temperatures.length respUneven.humidities.length)) :=
  ⟨⟨rfl, rfl⟩, c7_truncating_zip (some "1") (some "2") respUneven [] rfl rfl⟩

/-- C8 counterexample: the batch `respEven` is ingested with the persistence
failure injected at index 1, i.e. after the upsert for index 0 was executed;
yet the committed Store is still empty and the first observation is absent,
because the code only commits after the whole loop and the open transaction
rolls back. -/
theorem c8_counterexample :
    (weather_report (some "1") (some "2") (.ok respEven) (some 1) []).result = .otherError ∧
    (weather_report (some "1") (some "2") (.ok respEven) (some 1) []).store = [] ∧
    lookup (weather_report (some "1") (some "2") (.ok respEven) (some 1) []).store
      "2024-01-01T00:00" = none := by
  refine ⟨rfl, rfl, rfl⟩

/-- C8 (amended): if persistence fails at any point of an ingest batch, no
upsert of the batch is committed: the route answers the generic error and the
Store is exactly as before the call (the loop runs in one transaction that is
committed only after every execute succeeded). -/
theorem c8_rollback (lat lon : Option String) (d : ProviderResponse) (s : Store) (j : Nat)
    (hlat : falsy lat = false) (hlon : falsy lon = false)
    (hj : j < (zipObs d.timestamps d.temperatures d.humidities).length) :
    weather_report lat lon (.ok d) (some j) s =
      { result := .otherError, store := s, providerCalled := true } := by
  rw [weather_report_ok lat lon d (some j) s hlat hlon,
    runUpserts_fail _ _ 0 j (Nat.zero_le j) (by simpa using hj)]

/-- Witness for the amended C8: failure injected mid-batch on a non-empty
prior Store. -/
theorem c8_rollback_witness :
    (falsy (some "1") = false ∧ falsy (some "2") = false ∧
     1 < (zipObs respEven.timestamps respEven.temperatures respEven.humidities).length) ∧
    weather_report (some "1") (some "2") (.ok respEven) (some 1) [rowB] =
      { result := .otherError, store := [rowB], providerCalled := true } :=
  ⟨⟨rfl, rfl, by decide⟩,
    c8_rollback (some "1") (some "2") respEven [rowB] 1 rfl rfl (by decide)⟩

/-- C10: after a successful ingest of a provider batch, every Store row whose
timestamp is not among the batch timestamps is unchanged (same lookup result),
and every timestamp present before is still present — ingest never deletes a
row.  The two export operations read the Store without producing a new one. -/
theorem c10_ingest_frame (lat lon : Option String) (d : ProviderResponse) (s : Store)
    (hlat : falsy lat = false) (hlon : falsy lon = false) :
    (∀ t, t ∉ d.timestamps →
      lookup (weather_report lat lon (.ok d) none s).store t = lookup s t) ∧
    (∀ t, (lookup s t).isSome →
      (lookup (weather_report lat lon (.ok d) none s).store t).isSome) := by
  have hs : (weather_report lat lon (.ok d) none s).store =
      applyBatch s (zipObs d.timestamps d.temperatures d.humidities) := by
    rw [weather_report_ok lat lon d none s hlat hlon, runUpserts_none_eq]
  constructor
  · intro t ht
    rw [hs]
    exact lookup_applyBatch_not_mem _ s t (fun hmem => ht (mem_keys_zipObs _ _ _ t hmem))
  · intro t hsome
    rw [hs]
    exact lookup_applyBatch_isSome _ s t hsome

/-- Witness for C10: a successful ingest of `respEven` over a one-row Store
leaves the unrelated timestamp of `rowC` with its old value, and keeps every
previously present timestamp present. -/
theorem c10_witness :
    (falsy (some "1") = false ∧ falsy (some "2") = false ∧
     rowC.timestamp ∉ respEven.timestamps ∧ (lookup [rowC] rowC.timestamp).isSome) ∧
    lookup (weather_report (some "1") (some "2") (.ok respEven) none [rowC]).store
      rowC.timestamp = lookup [rowC] rowC.timestamp ∧
    (lookup (weather_report (some "1") (some "2") (.ok respEven) none [rowC]).store
      rowC.timestamp).isSome :=
  ⟨⟨rfl, rfl, by decide, by decide⟩,
    (c10_ingest_frame (some "1") (some "2") respEven [rowC] rfl rfl).1
      rowC.timestamp (by decide),
    (c10_ingest_frame (some "1") (some "2") respEven [rowC] rfl rfl).2
      rowC.timestamp (by decide)⟩
